import Mathlib

/-!
Verification of `SuspiciousNetNeighbors.py`.

The program scrapes the Windows ARP cache (`arp -a`), matches the cached MAC
addresses against a configured table of vendor MAC leading-digit rules, and — when
nothing matched — ping-sweeps the local /24 (derived from the local IPv4
address printed by `ipconfig`) to populate the cache before re-reading it.

The external collaborators (subprocess output of `arp -a` and `ipconfig`,
plus the selected interface binding) are modelled as explicit inputs.  Pure
text processing (the two regular expressions, `str.splitlines`,
`str.split('.')`, MAC normalisation) is embedded over `List Char`, and the
concurrent ping sweep becomes a step relation on a queue state.
-/

set_option maxRecDepth 4000

/-- The 10 ASCII digits, the character class `[0-9]` of both regexes. -/
def digitChars : List Char :=
  ['0', '1', '2', '3', '4'] ++ ['5', '6', '7', '8', '9']

/-- The six lowercase hex letters. -/
def lowHexChars : List Char := ['a', 'b', 'c'] ++ ['d', 'e', 'f']

/-- The six uppercase hex letters. -/
def hiHexChars : List Char := ['A', 'B', 'C'] ++ ['D', 'E', 'F']

/-- Membership in the `[0-9]` class. -/
def isDigitCh (c : Char) : Bool := decide (c ∈ digitChars)

/-- The character class `[0-9A-Fa-f:-]` of the ARP-table regex. -/
def macChars : List Char :=
  digitChars ++ hiHexChars ++ lowHexChars ++ [':', '-']

/-- Membership in the `[0-9A-Fa-f:-]` class. -/
def isMacCh (c : Char) : Bool := decide (c ∈ macChars)

/-- The hexadecimal digits, i.e. the characters kept by
`re.sub(r'[^0-9a-fA-F]', '', mac)` in `_norm`. -/
def hexChars : List Char :=
  digitChars ++ lowHexChars ++ hiHexChars

/-- Membership in the hexadecimal-digit class of `_norm`. -/
def isHexCh (c : Char) : Bool := decide (c ∈ hexChars)

/-- Characters matched by Python's `\s` (the whitespace characters an `arp -a`
line can realistically contain, plus the unicode spaces `\s` accepts). -/
def spaceChars : List Char :=
  ['\t', '\n', '\x0b', '\x0c', '\r', '\x1c', '\x1d', '\x1e', '\x1f', ' ',
   '\x85', '\xa0', ' ', ' ', ' ', ' ', ' ', ' ',
   ' ', ' ', ' ', ' ', ' ', ' ', ' ',
   ' ', ' ', ' ', '　']

/-- Membership in the `\s` class. -/
def isSpaceCh (c : Char) : Bool := decide (c ∈ spaceChars)

/-- Line-boundary characters of Python's `str.splitlines`. -/
def lineBreakChars : List Char :=
  ['\n', '\x0b', '\x0c', '\r', '\x1c', '\x1d', '\x1e', '\x85', ' ', ' ']

/-- Membership in the `str.splitlines` boundary set. -/
def isLineBreakCh (c : Char) : Bool := decide (c ∈ lineBreakChars)

/-- Worker of `pyLines`: cut the remaining text at every line boundary,
treating `\r\n` as a single boundary, accumulating the current line reversed. -/
def pyLinesAux : List Char → List Char → List (List Char)
  | acc, [] => [acc.reverse]
  | acc, '\r' :: '\n' :: rest => acc.reverse :: pyLinesAux [] rest
  | acc, c :: rest =>
    if isLineBreakCh c then acc.reverse :: pyLinesAux [] rest
    else pyLinesAux (c :: acc) rest

/-- Python `str.splitlines`: the empty string has no lines, and a trailing
line boundary does not open a final empty line. -/
def pyLines (s : List Char) : List (List Char) :=
  match s with
  | [] => []
  | _ =>
    let ls := pyLinesAux [] s
    if ls.getLast? = some [] then ls.dropLast else ls

/-- Python `str.split(sep)` for a one-character separator: splits at every
occurrence, keeping empty pieces. -/
def splitOnChar (sep : Char) : List Char → List (List Char)
  | [] => [[]]
  | c :: rest =>
    match splitOnChar sep rest with
    | [] => [[]]
    | h :: t => if c = sep then [] :: h :: t else (c :: h) :: t

/-- Greedy `[0-9]+`: the maximal leading digit run, failing when it is empty. -/
def digitRun (s : List Char) : Option (List Char × List Char) :=
  if (s.takeWhile isDigitCh).isEmpty then none
  else some (s.takeWhile isDigitCh, s.dropWhile isDigitCh)

/-- Greedy `\.[0-9]+`: a literal dot, then a nonempty maximal digit run. -/
def dotRun (s : List Char) : Option (List Char × List Char) :=
  match s with
  | '.' :: r =>
    if (r.takeWhile isDigitCh).isEmpty then none
    else some (r.takeWhile isDigitCh, r.dropWhile isDigitCh)
  | _ => none

/-- Greedy `[0-9]+(?:\.[0-9]+){3}` — the dotted-quad group shared by both of
the program's regexes.  Returns the matched group and the rest of the input.
No backtracking is needed: every quantified piece is followed by a character
its own class excludes, so the greedy maximal munch is the regex semantics. -/
def ipQuadRun (s : List Char) : Option (List Char × List Char) :=
  match digitRun s with
  | none => none
  | some (d1, r1) =>
    match dotRun r1 with
    | none => none
    | some (d2, r2) =>
      match dotRun r2 with
      | none => none
      | some (d3, r3) =>
        match dotRun r3 with
        | none => none
        | some (d4, r4) => some (d1 ++ '.' :: (d2 ++ '.' :: (d3 ++ '.' :: d4)), r4)

/-- Match `([0-9]+(?:\.[0-9]+){3})\s+([0-9A-Fa-f:-]{14,17})` anchored at the
start of `s`, returning the two groups (IP text, MAC token of at most 17
characters). -/
def arpMatchAt (s : List Char) : Option (List Char × List Char) :=
  match ipQuadRun s with
  | none => none
  | some (ipCs, r4) =>
    if (r4.takeWhile isSpaceCh).isEmpty then none
    else if ((r4.dropWhile isSpaceCh).takeWhile isMacCh).length < 14 then none
    else some (ipCs, ((r4.dropWhile isSpaceCh).takeWhile isMacCh).take 17)

/-- `re.search` of the ARP pattern: try the match at each position, leftmost
first. -/
def arpSearch : List Char → Option (List Char × List Char)
  | [] => none
  | c :: rest =>
    match arpMatchAt (c :: rest) with
    | some r => some r
    | none => arpSearch rest

/-- Pointwise `str.lower` for the ASCII range (the only characters the call
sites can pass: both are applied to strings of hex digits, `:` and `-`). -/
def lowerC (c : Char) : Char :=
  if 'A' ≤ c ∧ c ≤ 'Z' then Char.ofNat (c.toNat + 32) else c

/-- `str.lower` on a whole string. -/
def lowerStr (s : String) : String := ⟨s.data.map lowerC⟩

/-- The `'-' ↦ ':'` substitution of `.replace('-', ':')`. -/
def dashToColon (c : Char) : Char := if c = '-' then ':' else c

/-- `.replace('-', ':')` on a whole string. -/
def replaceDash (s : String) : String := ⟨s.data.map dashToColon⟩

/-- The parser's MAC canonicalisation `m.group(2).lower().replace('-', ':')`. -/
def canonMac (s : String) : String := replaceDash (lowerStr s)

/-- One line of `get_arp_entries`: search the line, and on a hit emit the
`(ip, canonical mac)` record. -/
def lineRecord (l : List Char) : Option (String × String) :=
  match arpSearch l with
  | some pr => some (⟨pr.1⟩, canonMac ⟨pr.2⟩)
  | none => none

/-- The record-collecting loop of `get_arp_entries` over the split lines. -/
def arpLoop : List (List Char) → List (String × String)
  | [] => []
  | l :: ls =>
    match arpSearch l with
    | some pr => (⟨pr.1⟩, canonMac ⟨pr.2⟩) :: arpLoop ls
    | none => arpLoop ls

/-- `get_arp_entries`: `none` models the `except Exception: return []` path
(command missing or non-zero exit); `some out` is the captured stdout, split
into lines and scanned. -/
def get_arp_entries : Option String → List (String × String)
  | none => []
  | some out => arpLoop (pyLines out.data)

/-- The configured `mac_device_map`, in declaration order (Python dict
literals preserve insertion order). -/
def mac_device_map : List (String × String) :=
  [("94:83:c4", "GL Technologies"),
   ("28:cd:c1", "RaspberryPi"),
   ("2c:cf:67", "RaspberryPi"),
   ("88:a2:9e", "RaspberryPi"),
   ("8c:1f:64:34:a", "RaspberryPi"),
   ("d8:3a:dd", "RaspberryPi"),
   ("dc:a6:32", "RaspberryPi"),
   ("e4:5f:01", "RaspberryPi"),
   ("f0:40:af:9", "RaspberryPi"),
   ("0a:bc:de:f0:12:34", "Test")]

/-- `_norm`: strip every non-hexadecimal character, then lowercase. -/
def normMac (s : String) : String := ⟨(s.data.filter isHexCh).map lowerC⟩

/-- Python `str.startswith` on character lists (subject first, pattern second). -/
def beginsWith : List Char → List Char → Bool
  | _, [] => true
  | [], _ :: _ => false
  | c :: s, d :: pat => c == d && beginsWith s pat

/-- The matcher test `_norm(mac).startswith(_norm(pref))`. -/
def macMatches (mac ruleKey : String) : Bool :=
  beginsWith (normMac mac).data (normMac ruleKey).data

/-- The inner rule loop of `main`: first rule (in declaration order) whose
normalised key starts the normalised MAC; `none` when no rule matches. -/
def classify (mac : String) (rules : List (String × String)) : Option String :=
  (rules.find? (fun r => macMatches mac r.1)).map (fun r => r.2)

/-- The match-building loop of `main`: one `(device, ip, mac)` triple per ARP
entry whose MAC classifies, in cache order. -/
def computeMatches (entries : List (String × String)) : List (String × String × String) :=
  entries.filterMap (fun e =>
    match classify e.2 mac_device_map with
    | some d => some (d, e.1, e.2)
    | none => none)

/-- `'.'.join(parts[:3])` — the /24 clamp of a dotted string. -/
def clamp24 (s : String) : String :=
  ⟨List.intercalate ['.'] ((splitOnChar '.' s.data).take 3)⟩

/-- `[f"{pref}.{i}" for i in range(1, 255)]` — host addresses 1–254 under a
three-octet dotted stem. -/
def hostList (stem : String) : List String :=
  (List.range' 1 254).map (fun i => stem ++ "." ++ toString i)

/-- The target computation of `ping_sweep`: an explicit list is used as is; a
string is split on dots — 4 parts are clamped to their /24, 3 parts are used
as a stem directly, anything else aborts the sweep (`return`), modelled as
`none`. -/
def ping_sweep_targets : String ⊕ List String → Option (List String)
  | Sum.inr ls => some ls
  | Sum.inl s =>
    if (splitOnChar '.' s.data).length = 4 then some (hostList (clamp24 s))
    else if (splitOnChar '.' s.data).length = 3 then some (hostList s)
    else none

/-- Consume the literal `lit` from the front of `s`. -/
def dropLit : List Char → List Char → Option (List Char)
  | s, [] => some s
  | [], _ :: _ => none
  | c :: s, d :: lit => if c = d then dropLit s lit else none

/-- The literal text of the `ipconfig` regex. -/
def ipv4Lit : List Char := "IPv4 Address".data

/-- Match `IPv4 Address[. ]*: ([0-9]+\.[0-9]+\.[0-9]+\.[0-9]+)` anchored at
the start of `s`, returning group 1. -/
def ipcMatchAt (s : List Char) : Option (List Char) :=
  match dropLit s ipv4Lit with
  | none => none
  | some r1 =>
    match r1.dropWhile (fun c => c == '.' || c == ' ') with
    | c1 :: c2 :: r3 =>
      if c1 = ':' ∧ c2 = ' ' then (ipQuadRun r3).map (fun p => p.1) else none
    | _ => none

/-- `re.search` of the `ipconfig` pattern over the whole output. -/
def ipcSearch : List Char → Option (List Char)
  | [] => none
  | c :: rest =>
    match ipcMatchAt (c :: rest) with
    | some g => some g
    | none => ipcSearch rest

/-- `get_local_ipv4`: `none` models both the subprocess failure path and a
search miss; otherwise the first dotted quad after an `IPv4 Address` label. -/
def get_local_ipv4 : Option String → Option String
  | none => none
  | some out =>
    match ipcSearch out.data with
    | some g => some ⟨g⟩
    | none => none

/-- External side effects `main` performs, in order: an `arp -a` read, an
`ipconfig` read, or a ping sweep over a target list. -/
inductive Eff where
  | arpRead : Eff
  | ipconfigRead : Eff
  | sweep : List String → Eff
deriving DecidableEq

/-- The environment of one run: stdout of the first `arp -a` (or `none` on
failure), stdout of `ipconfig` (or `none`), stdout of the second `arp -a`. -/
structure Env where
  arp1 : Option String
  ipconfigOut : Option String
  arp2 : Option String

/-- The passive-phase match list of `main`. -/
def passiveM (env : Env) : List (String × String × String) :=
  computeMatches (get_arp_entries env.arp1)

/-- The match list `main` finally reports: the passive one if nonempty,
otherwise the one recomputed from the post-sweep ARP read. -/
def finalMatches (env : Env) : List (String × String × String) :=
  if passiveM env = [] then computeMatches (get_arp_entries env.arp2) else passiveM env

/-- Sweep effects of the active phase: `ping_sweep(local_ip)` when `ipconfig`
yielded an address, else `ping_sweep('192.168.1')`; no probe is emitted when
the argument splits into neither 3 nor 4 dotted parts. -/
def sweepEffs (localIp : Option String) : List Eff :=
  match localIp with
  | some ipS =>
    match ping_sweep_targets (Sum.inl ipS) with
    | some ts => [Eff.sweep ts]
    | none => []
  | none =>
    match ping_sweep_targets (Sum.inl "192.168.1") with
    | some ts => [Eff.sweep ts]
    | none => []

/-- The ordered effect trace of one run of `main`. -/
def mainTrace (env : Env) : List Eff :=
  if passiveM env = [] then
    [Eff.arpRead, Eff.ipconfigRead] ++ sweepEffs (get_local_ipv4 env.ipconfigOut)
      ++ [Eff.arpRead]
  else [Eff.arpRead]

/-- The terminal no-match message. -/
def noMatchMsg : String := "No matches found for configured MAC prefixes"

/-- The 1-indexed report lines `f"{i}. {device} {ip} {mac}"`. -/
def renderMatches : Nat → List (String × String × String) → List String
  | _, [] => []
  | i, (d, ipS, mac) :: rest =>
    (toString i ++ ". " ++ d ++ " " ++ ipS ++ " " ++ mac) :: renderMatches (i + 1) rest

/-- Standard output of one run of `main`. -/
def mainOut (env : Env) : List String :=
  if finalMatches env = [] then [noMatchMsg] else renderMatches 1 (finalMatches env)

/-- One full run of `main`: its effect trace and its output lines. -/
def mainRun (env : Env) : List Eff × List String := (mainTrace env, mainOut env)

/-- An IPv4 address as four octets, the address-family data `netifaces`
reports for an interface. -/
structure IPv4 where
  a : Fin 256
  b : Fin 256
  c : Fin 256
  d : Fin 256

/-- `_ip2int`: big-endian 32-bit value of the address. -/
def ip2int (x : IPv4) : Nat :=
  ((x.a.val * 256 + x.b.val) * 256 + x.c.val) * 256 + x.d.val

/-- `_int2ip`: dotted-decimal text of a 32-bit value. -/
def int2ip (n : Nat) : String :=
  toString (n / 16777216 % 256) ++ "." ++ toString (n / 65536 % 256) ++ "."
    ++ toString (n / 256 % 256) ++ "." ++ toString (n % 256)

/-- Number of set bits among the low 32 — `bin(x).count('1')` for 32-bit
values. -/
def popcount32 (n : Nat) : Nat := (List.range 32).countP (fun i => n.testBit i)

/-- `_mask_to_prefix`: the popcount of the netmask. -/
def mask_len (m : IPv4) : Nat := popcount32 (ip2int m)

/-- The contiguous netmask of a given length: `k` leading ones. -/
def maskOfLen (k : Nat) : Nat := 2 ^ 32 - 2 ^ (32 - k)

/-- The subnet-enumeration core of `get_scan_targets_from_interface`, given
the selected interface's IPv4 address and netmask: for a mask of length at
least 24 enumerate `range(net_base + 1, bcast - 1 + 1)`; for a shorter mask
clamp to the /24 block of the address (host octets 1–254).  (In the program
this function is defined but never called; `main` derives its sweep targets
from `ipconfig` instead.) -/
def get_scan_targets_from_interface (ipA m : IPv4) : List String :=
  if 24 ≤ mask_len m then
    (List.range' (Nat.land (ip2int ipA) (ip2int m) + 1)
      (Nat.lor (Nat.land (ip2int ipA) (ip2int m)) (Nat.xor 4294967295 (ip2int m)) - 1 + 1
        - (Nat.land (ip2int ipA) (ip2int m) + 1))).map int2ip
  else
    (List.range' 1 254).map (fun i =>
      toString ipA.a.val ++ "." ++ toString ipA.b.val ++ "." ++ toString ipA.c.val
        ++ "." ++ toString i)

/-- `max_workers = min(60, len(ips))`. -/
def max_workers (ips : List String) : Nat := min 60 ips.length

/-- State of the sweep's shared work queue: the targets still queued, and the
targets some worker has already pulled and probed. -/
structure SweepState where
  pending : List String
  probed : List String

/-- One synchronised queue operation: a worker pops the front target and
probes it.  This is the only shared-state transition of the sweep. -/
inductive SweepStep : SweepState → SweepState → Prop
  | pop (t : String) (rest probed : List String) :
      SweepStep ⟨t :: rest, probed⟩ ⟨rest, t :: probed⟩

/-- Spec-side reading of a MAC-shaped token as claimed: 12–17 characters,
exactly 12 hexadecimal digits, everything else a `:` or `-` separator. -/
def specMacShaped (s : String) : Bool :=
  decide (12 ≤ s.data.length) && decide (s.data.length ≤ 17)
    && (s.data.filter isHexCh).length == 12
    && s.data.all (fun c => isHexCh c || c == ':' || c == '-')

/-- Characters a canonical parser-output MAC may contain: lowercase hex and
colons. -/
def canonChars : List Char := [':'] ++ digitChars ++ lowHexChars

/-- The separator-stripped residue of a string: every character that is not a
`:` or `-`. -/
def notSepC (c : Char) : Bool := !(c == ':' || c == '-')

/-- Strings differing only in separator style have the same `stripSeps`. -/
def stripSeps (s : String) : List Char := s.data.filter notSepC

/-- Sweep-effect recogniser for counting active-phase attempts in a trace. -/
def isSweep : Eff → Bool
  | Eff.sweep _ => true
  | _ => false

/-! ### Generic string and list helpers -/

theorem strData_append (x y : String) : (x ++ y).data = x.data ++ y.data := by
  cases x; cases y; rfl

theorem strAppend_assoc (x y z : String) : x ++ y ++ z = x ++ (y ++ z) := by
  apply String.ext
  rw [strData_append, strData_append, strData_append, strData_append, List.append_assoc]

theorem strCancelLeft {p a b : String} (h : p ++ a = p ++ b) : a = b := by
  apply String.ext
  have h2 := congrArg String.data h
  rw [strData_append, strData_append] at h2
  exact List.append_cancel_left h2

set_option maxHeartbeats 2000000 in
theorem natStr_nodup : ((List.range' 1 254).map (fun i => toString i)).Nodup := by decide

theorem natStr_no0 : "0" ∉ (List.range' 1 254).map (fun i => toString i) := by decide

theorem natStr_no255 : "255" ∉ (List.range' 1 254).map (fun i => toString i) := by decide

theorem hostList_eq (stem : String) :
    hostList stem
      = ((List.range' 1 254).map (fun i => toString i)).map (fun t => (stem ++ ".") ++ t) := by
  rw [List.map_map]; rfl

theorem hostList_length (stem : String) : (hostList stem).length = 254 := by
  simp [hostList]

theorem hostList_nodup (stem : String) : (hostList stem).Nodup := by
  rw [hostList_eq]
  exact List.Nodup.map (fun a b h => strCancelLeft h) natStr_nodup

theorem str_dot_pull (stem u : String) : stem ++ ("." ++ u) = (stem ++ ".") ++ u :=
  (strAppend_assoc stem "." u).symm

theorem hostList_no_net (stem : String) : (stem ++ ".0") ∉ hostList stem := by
  have hs : stem ++ ".0" = (stem ++ ".") ++ "0" := by
    rw [← str_dot_pull]
    rfl
  rw [hostList_eq, hs]
  intro h
  rcases List.mem_map.mp h with ⟨t, ht, heq⟩
  have h0 : t = "0" := strCancelLeft heq
  rw [h0] at ht
  exact natStr_no0 ht

theorem hostList_no_bcast (stem : String) : (stem ++ ".255") ∉ hostList stem := by
  have hs : stem ++ ".255" = (stem ++ ".") ++ "255" := by
    rw [← str_dot_pull]
    rfl
  rw [hostList_eq, hs]
  intro h
  rcases List.mem_map.mp h with ⟨t, ht, heq⟩
  have h0 : t = "255" := strCancelLeft heq
  rw [h0] at ht
  exact natStr_no255 ht

/-! ### `str.split('.')` lemmas -/

theorem splitOnChar_ne_nil (sep : Char) (l : List Char) : splitOnChar sep l ≠ [] := by
  cases l with
  | nil => simp [splitOnChar]
  | cons c rest =>
    simp only [splitOnChar]
    cases splitOnChar sep rest with
    | nil => simp
    | cons h t =>
      by_cases hc : c = sep <;> simp [hc]

theorem splitOnChar_sepFree {sep : Char} :
    ∀ {a : List Char}, (∀ c ∈ a, c ≠ sep) → splitOnChar sep a = [a] := by
  intro a
  induction a with
  | nil => intro _; rfl
  | cons c t ih =>
    intro h
    have hc : c ≠ sep := h c (List.mem_cons_self c t)
    have ht := ih (fun x hx => h x (List.mem_cons_of_mem c hx))
    simp only [splitOnChar, ht]
    rw [if_neg hc]

theorem splitOnChar_append {sep : Char} :
    ∀ (a r : List Char), (∀ c ∈ a, c ≠ sep) →
      splitOnChar sep (a ++ sep :: r) = a :: splitOnChar sep r := by
  intro a
  induction a with
  | nil =>
    intro r _
    cases hsp : splitOnChar sep r with
    | nil => exact absurd hsp (splitOnChar_ne_nil sep r)
    | cons h t => simp [splitOnChar, hsp]
  | cons c t ih =>
    intro r h
    have hc : c ≠ sep := h c (List.mem_cons_self c t)
    have ht := ih r (fun x hx => h x (List.mem_cons_of_mem c hx))
    simp only [List.cons_append, splitOnChar, List.append_eq, ht, if_neg hc]

theorem splitQuad {d1 d2 d3 d4 : List Char}
    (h1 : ∀ c ∈ d1, c ≠ '.') (h2 : ∀ c ∈ d2, c ≠ '.')
    (h3 : ∀ c ∈ d3, c ≠ '.') (h4 : ∀ c ∈ d4, c ≠ '.') :
    splitOnChar '.' (d1 ++ '.' :: (d2 ++ '.' :: (d3 ++ '.' :: d4))) = [d1, d2, d3, d4] := by
  rw [splitOnChar_append d1 _ h1, splitOnChar_append d2 _ h2, splitOnChar_append d3 _ h3,
    splitOnChar_sepFree h4]

/-! ### Digit-run facts -/

theorem digit_ne_dot {c : Char} (h : isDigitCh c = true) : c ≠ '.' := by
  intro he
  rw [he] at h
  exact (by decide : isDigitCh '.' ≠ true) h

theorem digitRun_digits {s d r : List Char} (h : digitRun s = some (d, r)) :
    ∀ c ∈ d, isDigitCh c = true := by
  unfold digitRun at h
  by_cases he : (s.takeWhile isDigitCh).isEmpty
  · rw [if_pos he] at h; cases h
  · rw [if_neg he] at h
    have hd : d = s.takeWhile isDigitCh := by
      injection h with h2
      injection h2 with h3 h4
      exact h3.symm
    intro c hc
    rw [hd] at hc
    exact List.mem_takeWhile_imp hc

theorem dotRun_digits {s d r : List Char} (h : dotRun s = some (d, r)) :
    ∀ c ∈ d, isDigitCh c = true := by
  unfold dotRun at h
  split at h
  case _ r0 =>
    by_cases he : (r0.takeWhile isDigitCh).isEmpty
    · rw [if_pos he] at h; cases h
    · rw [if_neg he] at h
      have hd : d = r0.takeWhile isDigitCh := by
        injection h with h2
        injection h2 with h3 h4
        exact h3.symm
      intro c hc2
      rw [hd] at hc2
      exact List.mem_takeWhile_imp hc2
  case _ => cases h

/-! ### Shape of the dotted-quad group -/

theorem ipQuadRun_shape {s g r : List Char} (h : ipQuadRun s = some (g, r)) :
    (splitOnChar '.' g).length = 4 := by
  unfold ipQuadRun at h
  cases h1 : digitRun s with
  | none => rw [h1] at h; cases h
  | some p1 =>
    obtain ⟨d1, r1⟩ := p1
    rw [h1] at h
    dsimp only [] at h
    cases h2 : dotRun r1 with
    | none => rw [h2] at h; cases h
    | some p2 =>
      obtain ⟨d2, r2⟩ := p2
      rw [h2] at h
      dsimp only [] at h
      cases h3 : dotRun r2 with
      | none => rw [h3] at h; cases h
      | some p3 =>
        obtain ⟨d3, r3⟩ := p3
        rw [h3] at h
        dsimp only [] at h
        cases h4 : dotRun r3 with
        | none => rw [h4] at h; cases h
        | some p4 =>
          obtain ⟨d4, r4⟩ := p4
          rw [h4] at h
          dsimp only [] at h
          have hg : g = d1 ++ '.' :: (d2 ++ '.' :: (d3 ++ '.' :: d4)) := by
            injection h with hp
            injection hp with hg2 hr2
            exact hg2.symm
          rw [hg, splitQuad
            (fun c hc => digit_ne_dot (digitRun_digits h1 c hc))
            (fun c hc => digit_ne_dot (dotRun_digits h2 c hc))
            (fun c hc => digit_ne_dot (dotRun_digits h3 c hc))
            (fun c hc => digit_ne_dot (dotRun_digits h4 c hc))]
          rfl

/-! ### `ping_sweep` target lemmas -/

theorem ping4 {s : String} (h4 : (splitOnChar '.' s.data).length = 4) :
    ping_sweep_targets (Sum.inl s) = some (hostList (clamp24 s)) := by
  show (if (splitOnChar '.' s.data).length = 4 then some (hostList (clamp24 s))
    else if (splitOnChar '.' s.data).length = 3 then some (hostList s) else none)
    = some (hostList (clamp24 s))
  rw [if_pos h4]

set_option maxHeartbeats 2000000 in
theorem ping192 : ping_sweep_targets (Sum.inl "192.168.1") = some (hostList "192.168.1") := by
  decide

/-! ### Shape of the `ipconfig` search result -/

theorem ipcMatchAt_shape {s g : List Char} (h : ipcMatchAt s = some g) :
    (splitOnChar '.' g).length = 4 := by
  unfold ipcMatchAt at h
  cases h1 : dropLit s ipv4Lit with
  | none => rw [h1] at h; cases h
  | some r1 =>
    rw [h1] at h
    dsimp only [] at h
    cases h2 : r1.dropWhile (fun c => c == '.' || c == ' ') with
    | nil => rw [h2] at h; cases h
    | cons c1 rest1 =>
      cases rest1 with
      | nil => rw [h2] at h; cases h
      | cons c2 r3 =>
        rw [h2] at h
        dsimp only [] at h
        by_cases hcs : c1 = ':' ∧ c2 = ' '
        · rw [if_pos hcs] at h
          rcases Option.map_eq_some'.mp h with ⟨p, hp, hg⟩
          obtain ⟨g2, r2⟩ := p
          rw [← hg]
          exact ipQuadRun_shape hp
        · rw [if_neg hcs] at h
          cases h

theorem ipcSearch_shape : ∀ {s g : List Char}, ipcSearch s = some g →
    (splitOnChar '.' g).length = 4 := by
  intro s
  induction s with
  | nil => intro g h; cases h
  | cons c rest ih =>
    intro g h
    unfold ipcSearch at h
    cases hm : ipcMatchAt (c :: rest) with
    | some g2 =>
      rw [hm] at h
      cases h
      exact ipcMatchAt_shape hm
    | none =>
      rw [hm] at h
      exact ih h

theorem get_local_shape {o : Option String} {s : String} (h : get_local_ipv4 o = some s) :
    (splitOnChar '.' s.data).length = 4 := by
  cases o with
  | none => cases h
  | some out =>
    unfold get_local_ipv4 at h
    dsimp only [] at h
    cases hs : ipcSearch out.data with
    | none => rw [hs] at h; cases h
    | some g =>
      rw [hs] at h
      cases h
      exact ipcSearch_shape hs

/-! ### Sweep-effect lemmas -/

theorem sweepEffs_of_none : sweepEffs none = [Eff.sweep (hostList "192.168.1")] := by
  unfold sweepEffs
  dsimp only []
  rw [ping192]

theorem sweepEffs_of_some {o : Option String} {s : String} (h : get_local_ipv4 o = some s) :
    sweepEffs (get_local_ipv4 o) = [Eff.sweep (hostList (clamp24 s))] := by
  rw [h]
  unfold sweepEffs
  dsimp only []
  rw [ping4 (get_local_shape h)]

theorem sweepEffs_shape {o : Option String} {ts : List String}
    (h : Eff.sweep ts ∈ sweepEffs (get_local_ipv4 o)) :
    ∃ stem, ts = hostList stem := by
  cases hl : get_local_ipv4 o with
  | none =>
    rw [hl, sweepEffs_of_none] at h
    refine ⟨"192.168.1", ?_⟩
    rcases List.mem_singleton.mp h with heq
    injection heq
  | some s =>
    rw [sweepEffs_of_some hl] at h
    refine ⟨clamp24 s, ?_⟩
    rcases List.mem_singleton.mp h with heq
    injection heq

theorem sweepEffs_len (o : Option String) : (sweepEffs o).length ≤ 1 := by
  unfold sweepEffs
  cases o with
  | none =>
    dsimp only []
    cases ping_sweep_targets (Sum.inl "192.168.1") <;> simp
  | some s =>
    dsimp only []
    cases ping_sweep_targets (Sum.inl s) <;> simp

/-! ### Parser loop and MAC-character lemmas -/

theorem arpLoop_eq (ls : List (List Char)) : arpLoop ls = ls.filterMap lineRecord := by
  induction ls with
  | nil => rfl
  | cons l t ih =>
    cases h : arpSearch l with
    | none => simp [arpLoop, List.filterMap_cons, lineRecord, h, ih]
    | some pr => simp [arpLoop, List.filterMap_cons, lineRecord, h, ih]

theorem arpMatchAt_mac {s ipCs macCs : List Char} (h : arpMatchAt s = some (ipCs, macCs)) :
    ∀ c ∈ macCs, isMacCh c = true := by
  unfold arpMatchAt at h
  cases hq : ipQuadRun s with
  | none => rw [hq] at h; cases h
  | some p =>
    obtain ⟨g, r4⟩ := p
    rw [hq] at h
    dsimp only [] at h
    by_cases hw : (r4.takeWhile isSpaceCh).isEmpty
    · rw [if_pos hw] at h; cases h
    · rw [if_neg hw] at h
      by_cases hlen : ((r4.dropWhile isSpaceCh).takeWhile isMacCh).length < 14
      · rw [if_pos hlen] at h; cases h
      · rw [if_neg hlen] at h
        have hm : macCs = ((r4.dropWhile isSpaceCh).takeWhile isMacCh).take 17 := by
          injection h with hp
          injection hp with hg2 hm2
          exact hm2.symm
        intro c hc
        rw [hm] at hc
        exact List.mem_takeWhile_imp (List.mem_of_mem_take hc)

theorem arpSearch_mac : ∀ {l ipCs macCs : List Char}, arpSearch l = some (ipCs, macCs) →
    ∀ c ∈ macCs, isMacCh c = true := by
  intro l
  induction l with
  | nil => intro _ _ h; cases h
  | cons c rest ih =>
    intro ipCs macCs h
    unfold arpSearch at h
    cases hm : arpMatchAt (c :: rest) with
    | some pr =>
      rw [hm] at h
      cases h
      exact arpMatchAt_mac hm
    | none =>
      rw [hm] at h
      exact ih h

theorem canonChar_mem {c : Char} (h : isMacCh c = true) :
    dashToColon (lowerC c) ∈ canonChars := by
  unfold isMacCh at h
  have hm : c ∈ macChars := of_decide_eq_true h
  fin_cases hm <;> decide

/-! ### Normalisation lemmas for separator invariance -/

theorem hex_notSep {c : Char} (h : isHexCh c = true) : notSepC c = true := by
  unfold isHexCh at h
  have hm : c ∈ hexChars := of_decide_eq_true h
  fin_cases hm <;> decide

theorem filter_hex_strip (l : List Char) :
    (l.filter notSepC).filter isHexCh = l.filter isHexCh := by
  induction l with
  | nil => rfl
  | cons c t ih =>
    cases hh : isHexCh c with
    | true =>
      have hs := hex_notSep hh
      simp [List.filter_cons, hh, hs, ih]
    | false =>
      cases hs : notSepC c with
      | true => simp [List.filter_cons, hh, hs, ih]
      | false => simp [List.filter_cons, hh, hs, ih]

theorem normMac_strip {s t : String} (h : stripSeps s = stripSeps t) : normMac s = normMac t := by
  unfold normMac
  have h2 : s.data.filter isHexCh = t.data.filter isHexCh := by
    rw [← filter_hex_strip s.data, ← filter_hex_strip t.data]
    unfold stripSeps at h
    rw [h]
  rw [h2]

/-! ### First-match decomposition of `find?` -/

theorem find?_first {α : Type} (p : α → Bool) :
    ∀ (l : List α) (a : α),
      l.find? p = some a ↔
        ∃ pre post, l = pre ++ a :: post ∧ p a = true ∧ ∀ x ∈ pre, p x = false := by
  intro l
  induction l with
  | nil =>
    intro a
    constructor
    · intro h; cases h
    · rintro ⟨pre, post, habs, -, -⟩
      exact absurd habs (by simp)
  | cons b t ih =>
    intro a
    cases hb : p b with
    | true =>
      rw [List.find?_cons_of_pos _ hb]
      constructor
      · intro h
        injection h with h
        subst h
        exact ⟨[], t, rfl, hb, by intro x hx; cases hx⟩
      · rintro ⟨pre, post, hl, hpa, hpre⟩
        cases pre with
        | nil =>
          rw [List.nil_append, List.cons.injEq] at hl
          rw [hl.1]
        | cons q qs =>
          rw [List.cons_append, List.cons.injEq] at hl
          have : p b = false := hl.1 ▸ hpre q (List.mem_cons_self q qs)
          rw [hb] at this
          cases this
    | false =>
      rw [List.find?_cons_of_neg _ (by rw [hb]; exact Bool.false_ne_true)]
      rw [ih]
      constructor
      · rintro ⟨pre, post, hl, hpa, hpre⟩
        refine ⟨b :: pre, post, by rw [List.cons_append, hl], hpa, ?_⟩
        intro x hx
        rcases List.mem_cons.mp hx with hxb | hx2
        · rw [hxb]; exact hb
        · exact hpre x hx2
      · rintro ⟨pre, post, hl, hpa, hpre⟩
        cases pre with
        | nil =>
          rw [List.nil_append, List.cons.injEq] at hl
          rw [← hl.1] at hpa
          rw [hb] at hpa
          cases hpa
        | cons q qs =>
          rw [List.cons_append, List.cons.injEq] at hl
          exact ⟨qs, post, hl.2, hpa, fun x hx => hpre x (hl.1 ▸ List.mem_cons_of_mem q hx)⟩

/-! ### Netmask popcount -/

set_option maxHeartbeats 2000000 in
theorem popcount_maskOfLen {k : Nat} (hk : k ≤ 32) : popcount32 (maskOfLen k) = k := by
  interval_cases k <;> decide

/-! ### Queue-drain invariant of the sweep -/

theorem sweep_inv {s s2 : SweepState} (h : Relation.ReflTransGen SweepStep s s2) :
    s2.probed.reverse ++ s2.pending = s.probed.reverse ++ s.pending := by
  induction h with
  | refl => rfl
  | tail _ hstep ih =>
    cases hstep with
    | pop t rest probed =>
      calc (t :: probed).reverse ++ rest = probed.reverse ++ (t :: rest) := by simp
        _ = s.probed.reverse ++ s.pending := ih

/-! ## Claim theorems -/

/-- Claim C2: subnet enumeration follows the two-branch algorithm.  For a
contiguous netmask of length `k`: when `k ≥ 24` the result is exactly the
addresses of `[net_base + 1, broadcast - 1]` in ascending order (the
`List.range'` enumeration mapped through `int2ip`); when `k < 24` the result
is clamped to the /24 block containing the address — its first three octets
with host octets 1 through 254. -/
theorem C2_subnet_enumeration (ipA m : IPv4) (k : Nat) (hk : k ≤ 32)
    (hm : ip2int m = maskOfLen k) :
    (24 ≤ k →
      get_scan_targets_from_interface ipA m =
        (List.range' (Nat.land (ip2int ipA) (ip2int m) + 1)
          (Nat.lor (Nat.land (ip2int ipA) (ip2int m)) (Nat.xor 4294967295 (ip2int m)) - 1 + 1
            - (Nat.land (ip2int ipA) (ip2int m) + 1))).map int2ip)
    ∧ (k < 24 →
      get_scan_targets_from_interface ipA m =
        (List.range' 1 254).map (fun i =>
          toString ipA.a.val ++ "." ++ toString ipA.b.val ++ "." ++ toString ipA.c.val
            ++ "." ++ toString i)) := by
  have hml : mask_len m = k := by
    unfold mask_len
    rw [hm]
    exact popcount_maskOfLen hk
  constructor
  · intro h
    unfold get_scan_targets_from_interface
    rw [if_pos (by rw [hml]; exact h)]
  · intro h
    unfold get_scan_targets_from_interface
    rw [if_neg (by rw [hml]; omega)]

set_option maxHeartbeats 2000000 in
/-- Witness for C2 at the claim's own example `enumerate(10.0.0.5,
255.255.255.0)` (a /24: exactly `10.0.0.1` … `10.0.0.254`) and at the spec's
/16 example `enumerate(10.0.5.5, 255.255.0.0)` (clamped to `10.0.5.1` …
`10.0.5.254`). -/
theorem C2_subnet_enumeration_witness :
    get_scan_targets_from_interface ⟨10, 0, 0, 5⟩ ⟨255, 255, 255, 0⟩
        = (List.range' 1 254).map (fun i => "10.0.0." ++ toString i)
    ∧ get_scan_targets_from_interface ⟨10, 0, 5, 5⟩ ⟨255, 255, 0, 0⟩
        = (List.range' 1 254).map (fun i => "10.0.5." ++ toString i) := by
  constructor
  · exact ((C2_subnet_enumeration ⟨10, 0, 0, 5⟩ ⟨255, 255, 255, 0⟩ 24 (by decide)
      (by decide)).1 (by decide)).trans (by decide)
  · exact ((C2_subnet_enumeration ⟨10, 0, 5, 5⟩ ⟨255, 255, 0, 0⟩ 16 (by decide)
      (by decide)).2 (by decide)).trans (by decide)

/-- Claim C5: `matches` is invariant under substituting separator style in
either argument.  Normalisation strips every non-hexadecimal character (in
particular `:` and `-`) and lowercases, and is applied to both sides, so any
two MACs (and any two rule keys) that agree after deleting separators match
identically. -/
theorem C5_separator_invariance (m1 m2 p1 p2 : String)
    (hm : stripSeps m1 = stripSeps m2) (hp : stripSeps p1 = stripSeps p2) :
    macMatches m1 p1 = macMatches m2 p2 := by
  unfold macMatches
  rw [normMac_strip hm, normMac_strip hp]

/-- Witness for C5: colon-separated, dash-separated and separator-free
spellings of the same MAC and rule key match identically (and do match). -/
theorem C5_separator_invariance_witness :
    stripSeps "28:cd:c1:aa:bb:cc" = stripSeps "28-cd-c1-aa-bb-cc"
    ∧ stripSeps "28:cd:c1" = stripSeps "28cdc1"
    ∧ macMatches "28:cd:c1:aa:bb:cc" "28:cd:c1" = macMatches "28-cd-c1-aa-bb-cc" "28cdc1"
    ∧ macMatches "28:cd:c1:aa:bb:cc" "28:cd:c1" = true := by
  refine ⟨by decide, by decide, ?_, by decide⟩
  exact C5_separator_invariance "28:cd:c1:aa:bb:cc" "28-cd-c1-aa-bb-cc" "28:cd:c1" "28cdc1"
    (by decide) (by decide)

/-- Claim C7: no fatal error path.  A failed `arp -a` invocation (modelled as
`none`) yields the empty record set, and parsing an empty string, a
header-only table, or pure noise yields the empty record sequence — the
embedding is a total function, so no input raises. -/
theorem C7_no_fatal_error :
    get_arp_entries none = []
    ∧ get_arp_entries (some "") = []
    ∧ get_arp_entries
        (some "Interface: 192.168.1.50 --- 0x2\n  Internet Address      Physical Address      Type\n")
        = []
    ∧ get_arp_entries (some "no arp output here; lorem ipsum 1234. ???\n####\n") = [] := by
  refine ⟨rfl, rfl, by decide, by decide⟩

/-- Claim C8: the sweep pre-loads all targets into the shared work queue,
starts `min 60 |targets|` workers, and control returns only once the queue is
drained, at which point the list of probed targets is exactly the original
target list (reversed pop order): every target dequeued exactly once, none
probed twice, none skipped. -/
theorem C8_sweep_drain (targets : List String) (hne : targets ≠ []) (s : SweepState)
    (h : Relation.ReflTransGen SweepStep ⟨targets, []⟩ s) (hdone : s.pending = []) :
    max_workers targets = min 60 targets.length
    ∧ 1 ≤ max_workers targets
    ∧ s.probed.reverse = targets
    ∧ ∀ t, s.probed.count t = targets.count t := by
  have hinv := sweep_inv h
  rw [hdone, List.append_nil] at hinv
  simp only [List.reverse_nil, List.nil_append] at hinv
  refine ⟨rfl, ?_, hinv, ?_⟩
  · unfold max_workers
    have : 0 < targets.length := List.length_pos.mpr hne
    omega
  · intro t
    rw [← hinv, List.count_reverse]

/-- Witness for C8: a one-target sweep, from queue `["192.168.1.7"]` to the
drained state in one pop. -/
theorem C8_sweep_drain_witness :
    max_workers ["192.168.1.7"] = min 60 1
    ∧ (SweepState.mk [] ["192.168.1.7"]).probed.reverse = ["192.168.1.7"] := by
  refine ⟨?_, ?_⟩
  · exact (C8_sweep_drain ["192.168.1.7"] (by decide) ⟨[], ["192.168.1.7"]⟩
      (Relation.ReflTransGen.single (SweepStep.pop "192.168.1.7" [] [])) rfl).1
  · exact (C8_sweep_drain ["192.168.1.7"] (by decide) ⟨[], ["192.168.1.7"]⟩
      (Relation.ReflTransGen.single (SweepStep.pop "192.168.1.7" [] [])) rfl).2.2.1

/-- Claim C10: a string sweep argument whose dotted split has neither three
nor four parts (an empty string, a bare hostname, …) produces no targets and
no probes — `ping_sweep` returns immediately; only 3-part stems, 4-part
addresses, or explicit lists produce targets. -/
theorem C10_bad_target_arg (s : String)
    (h3 : (splitOnChar '.' s.data).length ≠ 3)
    (h4 : (splitOnChar '.' s.data).length ≠ 4) :
    ping_sweep_targets (Sum.inl s) = none
    ∧ ∀ (x : String ⊕ List String) (ts : List String),
        ping_sweep_targets x = some ts →
          (∃ l, x = Sum.inr l ∧ ts = l)
          ∨ ∃ s2, x = Sum.inl s2 ∧
              ((splitOnChar '.' s2.data).length = 4 ∨ (splitOnChar '.' s2.data).length = 3) := by
  constructor
  · show (if (splitOnChar '.' s.data).length = 4 then some (hostList (clamp24 s))
      else if (splitOnChar '.' s.data).length = 3 then some (hostList s) else none) = none
    rw [if_neg h4, if_neg h3]
  · intro x ts hx
    cases x with
    | inr l =>
      left
      refine ⟨l, rfl, ?_⟩
      injection hx with h
      exact h.symm
    | inl s2 =>
      right
      refine ⟨s2, rfl, ?_⟩
      by_cases k4 : (splitOnChar '.' s2.data).length = 4
      · exact Or.inl k4
      · by_cases k3 : (splitOnChar '.' s2.data).length = 3
        · exact Or.inr k3
        · exfalso
          have : ping_sweep_targets (Sum.inl s2) = none := by
            show (if (splitOnChar '.' s2.data).length = 4 then some (hostList (clamp24 s2))
              else if (splitOnChar '.' s2.data).length = 3 then some (hostList s2)
              else none) = none
            rw [if_neg k4, if_neg k3]
          rw [this] at hx
          cases hx

/-- Witness for C10 at the arguments `"localhost"` (one dotted part) and
`""` (one empty part): no targets are produced. -/
theorem C10_bad_target_arg_witness :
    (splitOnChar '.' "localhost".data).length = 1
    ∧ ping_sweep_targets (Sum.inl "localhost") = none
    ∧ ping_sweep_targets (Sum.inl "") = none := by
  refine ⟨by decide, ?_, ?_⟩
  · exact (C10_bad_target_arg "localhost" (by decide) (by decide)).1
  · exact (C10_bad_target_arg "" (by decide) (by decide)).1

/-- Claim C4: `classify` iterates the rules in declaration order and returns
the label of the first rule whose normalised key begins the normalised MAC,
even when several rules match (the decomposition below makes every rule
before the hit non-matching); when no rule matches it returns `none`, and
such a MAC contributes no triple to the match list built over the configured
`mac_device_map`. -/
theorem C4_first_match (mac : String) (rules : List (String × String)) :
    (∀ d, classify mac rules = some d ↔
        ∃ pre r post, rules = pre ++ r :: post ∧ macMatches mac r.1 = true
          ∧ (∀ r2 ∈ pre, macMatches mac r2.1 = false) ∧ d = r.2)
    ∧ (classify mac rules = none ↔ ∀ r ∈ rules, macMatches mac r.1 = false)
    ∧ (classify mac mac_device_map = none →
        ∀ ipS : String, computeMatches [(ipS, mac)] = []) := by
  refine ⟨?_, ?_, ?_⟩
  · intro d
    unfold classify
    rw [Option.map_eq_some']
    constructor
    · rintro ⟨r, hfind, hd⟩
      rcases (find?_first _ rules r).mp hfind with ⟨pre, post, hl, hp, hpre⟩
      exact ⟨pre, r, post, hl, hp, hpre, hd.symm⟩
    · rintro ⟨pre, r, post, hl, hp, hpre, hd⟩
      exact ⟨r, (find?_first _ rules r).mpr ⟨pre, post, hl, hp, hpre⟩, hd.symm⟩
  · constructor
    · intro h r hr
      cases hf : rules.find? (fun r2 => macMatches mac r2.1) with
      | none =>
        have hnp := List.find?_eq_none.mp hf r hr
        cases hmm : macMatches mac r.1 with
        | false => rfl
        | true => exact absurd hmm hnp
      | some a =>
        unfold classify at h
        rw [hf] at h
        cases h
    · intro h
      unfold classify
      rw [List.find?_eq_none.mpr (fun x hx hc => by rw [h x hx] at hc; cases hc)]
      rfl
  · intro h ipS
    simp [computeMatches, h]

/-- Witness for C4: both configured keys `aa` and `aabb` match
`AA-BB-CC`, and `classify` returns the label of the first. -/
theorem C4_first_match_witness :
    macMatches "AA-BB-CC" "aabb" = true
    ∧ classify "AA-BB-CC" [("aa", "First"), ("aabb", "Second")] = some "First" := by
  refine ⟨by decide, ?_⟩
  exact ((C4_first_match "AA-BB-CC" [("aa", "First"), ("aabb", "Second")]).1 "First").mpr
    ⟨[], ("aa", "First"), [("aabb", "Second")], rfl, by decide,
      ⟨fun r2 hr2 => absurd hr2 (List.not_mem_nil r2), rfl⟩⟩

/-- Counterexample to claim C3 as stated: the spec calls a token of 12–17
characters of hex pairs joined by `:` or `-` MAC-shaped, but the code's
pattern is `[0-9A-Fa-f:-]{14,17}` — the line `1.2.3.4 aabbccddeeff`,
whose second token is a 12-hex-digit MAC (so `specMacShaped`), is skipped,
while a 14-character token that is not hex pairs (`aabbccdd--eeff`) is
extracted. -/
theorem C3_counterexample :
    specMacShaped "aabbccddeeff" = true
    ∧ get_arp_entries (some "1.2.3.4 aabbccddeeff") = []
    ∧ get_arp_entries (some "1.2.3.4 aabbccdd--eeff") = [("1.2.3.4", "aabbccdd::eeff")] := by
  refine ⟨by decide, by decide, by decide⟩

/-- Amended claim C3: `parse` scans each `splitlines` line for the leftmost
occurrence of a dotted numeric quad followed by whitespace and a run of
**14–17** characters drawn from hex digits, `:` and `-`; it extracts one
record per matching line, skips every non-matching line, preserves input
line order (the output is the in-order `filterMap` of the per-line search),
and canonicalises every extracted MAC by lowercasing and replacing `-` with
`:`, so every output MAC consists of lowercase hex digits and colons. -/
theorem C3_amended_parse (raw : String) :
    get_arp_entries (some raw) = (pyLines raw.data).filterMap lineRecord
    ∧ ∀ e ∈ get_arp_entries (some raw), ∀ c ∈ (e.2 : String).data, c ∈ canonChars := by
  constructor
  · exact arpLoop_eq (pyLines raw.data)
  · intro e he c hc
    have he2 : e ∈ (pyLines raw.data).filterMap lineRecord := by
      rw [← arpLoop_eq (pyLines raw.data)]
      exact he
    rcases List.mem_filterMap.mp he2 with ⟨l, hl, hrec⟩
    unfold lineRecord at hrec
    cases hs : arpSearch l with
    | none => rw [hs] at hrec; cases hrec
    | some pr =>
      obtain ⟨ipCs, macCs⟩ := pr
      rw [hs] at hrec
      dsimp only [] at hrec
      have he3 : e = (⟨ipCs⟩, canonMac ⟨macCs⟩) := by
        injection hrec with h2
        exact h2.symm
      rw [he3] at hc
      have hc2 : c ∈ (macCs.map lowerC).map dashToColon := hc
      rw [List.map_map] at hc2
      rcases List.mem_map.mp hc2 with ⟨c0, hc0, hceq⟩
      rw [← hceq]
      exact canonChar_mem (arpSearch_mac hs c0 hc0)

/-- Witness for C3's amended theorem at a two-line table with one matching
and one noise line. -/
theorem C3_amended_parse_witness :
    get_arp_entries (some "header\n192.168.1.9 94-83-C4-01-02-03 dynamic\n")
      = (pyLines ("header\n192.168.1.9 94-83-C4-01-02-03 dynamic\n" : String).data).filterMap
          lineRecord := by
  exact (C3_amended_parse "header\n192.168.1.9 94-83-C4-01-02-03 dynamic\n").1

set_option maxHeartbeats 4000000 in
/-- Counterexample to claim C1 as stated: with the passive phase empty and an
environment whose `ipconfig` reports `10.0.0.5`, the program sweeps the 254
hosts of the clamped /24 `10.0.0.*` derived from that text — it performs no
interface lookup at all (the trace has no such effect, because
`get_scan_targets_from_interface` is never called) — whereas the claim says
the target list must be the subnet enumeration of the selected interface
binding; for the binding `10.0.0.5/255.255.255.128` that enumeration (the
126 hosts of the /25) differs from what is actually swept. -/
theorem C1_counterexample :
    mainTrace ⟨some "", some "   IPv4 Address. . . . : 10.0.0.5", some ""⟩
        = [Eff.arpRead, Eff.ipconfigRead, Eff.sweep (hostList "10.0.0"), Eff.arpRead]
    ∧ hostList "10.0.0" ≠ get_scan_targets_from_interface ⟨10, 0, 0, 5⟩ ⟨255, 255, 255, 128⟩ := by
  refine ⟨by decide, by decide⟩

/-- Amended claim C1: in the ACTIVE phase the sweep's target list is derived
from the local IPv4 address parsed out of `ipconfig` output, clamped to its
/24 (host octets 1–254); only when no local IPv4 address can be parsed does
the program fall back to the hardcoded `192.168.1` /24.  (The
interface-selection/subnet-enumeration routine exists in the source but is
never invoked.) -/
theorem C1_amended_targets (env : Env) (h : passiveM env = []) :
    (get_local_ipv4 env.ipconfigOut = none →
        mainTrace env
          = [Eff.arpRead, Eff.ipconfigRead, Eff.sweep (hostList "192.168.1"), Eff.arpRead])
    ∧ ∀ s, get_local_ipv4 env.ipconfigOut = some s →
        mainTrace env
          = [Eff.arpRead, Eff.ipconfigRead, Eff.sweep (hostList (clamp24 s)), Eff.arpRead] := by
  constructor
  · intro hl
    unfold mainTrace
    rw [if_pos h, hl, sweepEffs_of_none]
    rfl
  · intro s hl
    unfold mainTrace
    rw [if_pos h, sweepEffs_of_some hl]
    rfl

set_option maxHeartbeats 2000000 in
/-- Witness for C1's amended theorem: `ipconfig` reports `192.168.50.77`, so
the program sweeps `hostList (clamp24 "192.168.50.77")`, the 254 hosts of
`192.168.50.*`. -/
theorem C1_amended_targets_witness :
    passiveM ⟨some "", some "   IPv4 Address. . . . : 192.168.50.77", none⟩ = []
    ∧ get_local_ipv4 (some "   IPv4 Address. . . . : 192.168.50.77") = some "192.168.50.77"
    ∧ mainTrace ⟨some "", some "   IPv4 Address. . . . : 192.168.50.77", none⟩
        = [Eff.arpRead, Eff.ipconfigRead, Eff.sweep (hostList (clamp24 "192.168.50.77")),
           Eff.arpRead] := by
  refine ⟨by decide, by decide, ?_⟩
  exact (C1_amended_targets ⟨some "", some "   IPv4 Address. . . . : 192.168.50.77", none⟩
    (by decide)).2 "192.168.50.77" (by decide)

/-- Claim C6: every target list the program sweeps is some `hostList stem` —
exactly 254 entries, no duplicates, and it contains neither the network
address `stem ++ ".0"` nor the broadcast address `stem ++ ".255"` of the
computed /24 range. -/
theorem C6_target_set_invariants (env : Env) (ts : List String)
    (h : Eff.sweep ts ∈ mainTrace env) :
    ts.length = 254 ∧ ts.Nodup
    ∧ ∃ stem, ts = hostList stem ∧ (stem ++ ".0") ∉ ts ∧ (stem ++ ".255") ∉ ts := by
  have hshape : ∃ stem, ts = hostList stem := by
    unfold mainTrace at h
    by_cases hp : passiveM env = []
    · rw [if_pos hp] at h
      simp only [List.mem_append, List.mem_cons, List.not_mem_nil, or_false] at h
      rcases h with ((h | h) | h) | h
      · cases h
      · cases h
      · exact sweepEffs_shape h
      · cases h
    · rw [if_neg hp] at h
      simp at h
  obtain ⟨stem, rfl⟩ := hshape
  exact ⟨hostList_length stem, hostList_nodup stem, stem, rfl,
    hostList_no_net stem, hostList_no_bcast stem⟩

set_option maxHeartbeats 4000000 in
/-- Witness for C6: with `ipconfig` unavailable the program sweeps the
fallback list `hostList "192.168.1"`, which has 254 nodup entries. -/
theorem C6_target_set_invariants_witness :
    Eff.sweep (hostList "192.168.1") ∈ mainTrace ⟨some "", none, none⟩
    ∧ (hostList "192.168.1").length = 254
    ∧ (hostList "192.168.1").Nodup := by
  refine ⟨by decide, ?_, ?_⟩
  · exact (C6_target_set_invariants ⟨some "", none, none⟩ (hostList "192.168.1") (by decide)).1
  · exact (C6_target_set_invariants ⟨some "", none, none⟩ (hostList "192.168.1")
      (by decide)).2.1

/-- Claim C9: when the passive-phase match list is non-empty the active phase
never runs — the whole effect trace is the single initial cache read (no
`ipconfig` lookup, no sweep, no re-read) and the passive matches are
reported; in every run at most one sweep appears in the trace; and an empty
final match list is a valid terminal outcome, reported with the no-match
message rather than an error. -/
theorem C9_phase_order (env : Env) :
    (passiveM env ≠ [] →
        mainTrace env = [Eff.arpRead] ∧ finalMatches env = passiveM env)
    ∧ (mainTrace env).countP isSweep ≤ 1
    ∧ (finalMatches env = [] → mainOut env = [noMatchMsg]) := by
  refine ⟨?_, ?_, ?_⟩
  · intro h
    constructor
    · unfold mainTrace
      rw [if_neg h]
    · unfold finalMatches
      rw [if_neg h]
  · unfold mainTrace
    by_cases h : passiveM env = []
    · rw [if_pos h]
      rw [List.countP_append, List.countP_append]
      have h1 : List.countP isSweep [Eff.arpRead, Eff.ipconfigRead] = 0 := rfl
      have h2 : List.countP isSweep [Eff.arpRead] = 0 := rfl
      have h3 := le_trans (List.countP_le_length isSweep)
        (sweepEffs_len (get_local_ipv4 env.ipconfigOut))
      omega
    · rw [if_neg h]
      decide
  · intro h
    unfold mainOut
    rw [if_pos h]

/-- Witness for C9 at the spec's scenario A: the cache holds
`(192.168.1.10, 28:cd:c1:aa:bb:cc)`, rule `28:cd:c1 → RaspberryPi` fires in
the passive phase, and the trace is the single cache read. -/
theorem C9_phase_order_witness :
    passiveM ⟨some "192.168.1.10   28-cd-c1-aa-bb-cc   dynamic", none, none⟩ ≠ []
    ∧ mainTrace ⟨some "192.168.1.10   28-cd-c1-aa-bb-cc   dynamic", none, none⟩
        = [Eff.arpRead] := by
  refine ⟨by decide, ?_⟩
  exact ((C9_phase_order ⟨some "192.168.1.10   28-cd-c1-aa-bb-cc   dynamic", none, none⟩).1
    (by decide)).1
